import Mathlib

/-!
Shallow embedding of the core of the `watcherino` Twitch chat client
(wire parser, ring buffer, connection state machine, emote engine,
session supervisor), together with theorems settling the spec claims.

Go strings are modelled as `List Char` (the inputs of interest are
rune sequences; Go `[]rune` conversions become the identity).  Go's
64-bit machine integers are modelled as `Int` with explicit wrapping
modulo 2^64.  Code that can panic is modelled with `Option`, `none`
marking the panic.
-/

/-- Go strings, modelled as rune sequences. -/
abbrev Str := List Char

/-- Convert a Lean string literal to the `Str` model. -/
def str (s : String) : Str := s.data

/-- Go `strings.Split(s, sep)` for a one-rune separator: splits on every
occurrence, keeping empty fields (`Split("", sep) = [""]`). -/
def splitOnChar (sep : Char) : Str → List Str
  | [] => [[]]
  | c :: rest =>
    match splitOnChar sep rest with
    | [] => if c = sep then [[], []] else [[c]]
    | h :: t => if c = sep then [] :: h :: t else (c :: h) :: t

/-- First occurrence of `sub` in `s` (Go `strings.Index`), as a rune index. -/
def strIndex (sub : Str) : Str → Option Nat
  | s@(_ :: rest) =>
    if sub.isPrefixOf s then some 0
    else (strIndex sub rest).map (· + 1)
  | [] => if sub.isEmpty then some 0 else none

/-- Go `strings.SplitN(s, sep, 2)` for a one-rune separator: split at the
first occurrence only; a string without the separator stays whole. -/
def splitFirst (sep : Char) : Str → List Str
  | [] => [[]]
  | c :: rest =>
    if c = sep then [[], rest]
    else
      match splitFirst sep rest with
      | [] => [[c]]
      | h :: t => (c :: h) :: t

/-- Go `strings.HasPrefix`. -/
def startsWith (p s : Str) : Bool := p.isPrefixOf s

/-- Go `strings.TrimPrefix(s, "#")`. -/
def trimHash (s : Str) : Str :=
  match s with
  | '#' :: rest => rest
  | _ => s

/-- Go `strings.ToLower`, restricted to the ASCII range (the characters the
claims exercise are unaffected by Unicode case folding). -/
def toLowerStr (s : Str) : Str := s.map Char.toLower

/-! ## Data model: `Message` and `RingBuffer` (src/unnamed/part_000) -/

/-- The parsed chat message.  `Timestamp` models the Go `time.Time` receipt
time; `0` is the zero value (`Timestamp.IsZero()`), used as the ring
buffer's unwritten-slot sentinel. -/
structure Message where
  Username : Str
  Content : Str
  Channel : Str
  Tags : List (Str × Str)
  RawData : Str
  Timestamp : Nat
  Height : Int
  UserColor : Str
deriving DecidableEq

/-- The Go zero value of `Message` (an unwritten ring-buffer slot). -/
def zeroMessage : Message :=
  { Username := [], Content := [], Channel := [], Tags := [], RawData := []
    Timestamp := 0, Height := 0, UserColor := [] }

instance : Inhabited Message := ⟨zeroMessage⟩

/-- Tag-map lookup.  The Go `map[string]string` is built by repeated
assignment, so the last binding for a key wins. -/
def tagLookup (tags : List (Str × Str)) (key : Str) : Option Str :=
  (tags.reverse.find? (fun p => p.1 == key)).map (·.2)

/-- `RingBuffer` holds the last `size` messages; `index` is the write cursor. -/
structure RingBuffer where
  messages : List Message
  size : Nat
  index : Nat
deriving DecidableEq

/-- `NewRingBuffer`: `size` zero-valued slots, cursor at 0. -/
def NewRingBuffer (size : Nat) : RingBuffer :=
  { messages := List.replicate size zeroMessage, size := size, index := 0 }

/-- `RingBuffer.Add`: overwrite the slot at the cursor, advance modulo size. -/
def RingBuffer.Add (rb : RingBuffer) (msg : Message) : RingBuffer :=
  { rb with messages := rb.messages.set rb.index msg
            index := (rb.index + 1) % rb.size }

/-- `RingBuffer.GetAll`: scan `size` slots starting at the cursor (the oldest
slot), dropping zero-timestamp sentinels. -/
def RingBuffer.GetAll (rb : RingBuffer) : List Message :=
  ((List.range rb.size).map
      (fun i => rb.messages.getD ((rb.index + i) % rb.size) zeroMessage)).filter
    (fun m => m.Timestamp != 0)

/-- `RingBuffer.GetLast n`: the source clamps `n` to `size`, then walks
`i = n-1, …, 0` over slot `(index - 1 - i + size) % size`, prepending each
non-sentinel entry.  Prepending while walking oldest→newest yields the list
in the order `i = 0, 1, …, n-1` (newest first), which is the `map` below. -/
def RingBuffer.GetLast (rb : RingBuffer) (n : Nat) : List Message :=
  let n' := min n rb.size
  ((List.range n').map
      (fun i => rb.messages.getD ((rb.index + rb.size - 1 - i) % rb.size) zeroMessage)).filter
    (fun m => m.Timestamp != 0)

/-- Adding a list of messages to a fresh buffer of capacity `N`. -/
def buildRB (N : Nat) (ms : List Message) : RingBuffer :=
  ms.foldl RingBuffer.Add (NewRingBuffer N)

/-! ## Ring buffer lemmas -/

lemma getD_set_self (l : List Message) (i : Nat) (m : Message) (h : i < l.length) :
    (l.set i m).getD i zeroMessage = m := by
  simp [List.getD, List.getElem?_set_self', h]

lemma getD_set_ne (l : List Message) (i j : Nat) (m : Message) (h : i ≠ j) :
    (l.set i m).getD j zeroMessage = l.getD j zeroMessage := by
  simp [List.getD, List.getElem?_set_ne h]

/-- The scan of an updated buffer: writing `m` at the cursor and advancing
rotates the `GetAll` scan by one, the overwritten slot reappearing last,
now holding `m`. -/
lemma scan_rotate (msgs : List Message) (m : Message) (N' idx : Nat)
    (hlen : msgs.length = N' + 1) (hidx : idx < N' + 1) :
    (List.range (N' + 1)).map
        (fun i => (msgs.set idx m).getD (((idx + 1) % (N' + 1) + i) % (N' + 1)) zeroMessage)
      = ((List.range (N' + 1)).map
          (fun i => msgs.getD ((idx + i) % (N' + 1)) zeroMessage)).drop 1 ++ [m] := by
  have hdrop : ((List.range (N' + 1)).map
        (fun i => msgs.getD ((idx + i) % (N' + 1)) zeroMessage)).drop 1
      = (List.range N').map
          (fun t => msgs.getD ((idx + (t + 1)) % (N' + 1)) zeroMessage) := by
    rw [List.range_succ_eq_map, List.map_cons, List.drop_succ_cons, List.drop_zero,
      List.map_map]
    rfl
  rw [hdrop, List.range_succ, List.map_append, List.map_singleton]
  congr 1
  · apply List.map_congr_left
    intro t ht
    have ht' : t < N' := List.mem_range.mp ht
    have hpos : ((idx + 1) % (N' + 1) + t) % (N' + 1) = (idx + (t + 1)) % (N' + 1) := by
      rw [Nat.mod_add_mod]
      ring_nf
    rw [hpos]
    apply getD_set_ne
    rcases Nat.lt_or_ge (idx + (t + 1)) (N' + 1) with h | h
    · rw [Nat.mod_eq_of_lt h]; omega
    · rw [Nat.mod_eq_sub_mod h, Nat.mod_eq_of_lt (by omega)]; omega
  · have hpos : ((idx + 1) % (N' + 1) + N') % (N' + 1) = idx := by
      rw [Nat.mod_add_mod]
      have : idx + 1 + N' = idx + (N' + 1) := by ring
      rw [this, Nat.add_mod_right, Nat.mod_eq_of_lt hidx]
    rw [hpos, getD_set_self _ _ _ (by omega)]

/-- One `Add` on a well-formed buffer: if the overwritten slot was a
sentinel the new message is appended; otherwise the oldest entry is dropped
and the new message appended. -/
lemma GetAll_Add (rb : RingBuffer) (m : Message) (hN : 0 < rb.size)
    (hlen : rb.messages.length = rb.size) (hidx : rb.index < rb.size)
    (hm : m.Timestamp ≠ 0) :
    (rb.Add m).GetAll =
      (if (rb.messages.getD rb.index zeroMessage).Timestamp = 0
        then rb.GetAll else rb.GetAll.drop 1) ++ [m] := by
  obtain ⟨msgs, N, idx⟩ := rb
  simp only at hN hlen hidx ⊢
  obtain ⟨N', rfl⟩ : ∃ N', N = N' + 1 := ⟨N - 1, by omega⟩
  simp only [RingBuffer.Add, RingBuffer.GetAll]
  rw [scan_rotate msgs m N' idx hlen hidx, List.filter_append]
  have hsplit : (List.range (N' + 1)).map
        (fun i => msgs.getD ((idx + i) % (N' + 1)) zeroMessage)
      = msgs.getD idx zeroMessage ::
        ((List.range (N' + 1)).map
          (fun i => msgs.getD ((idx + i) % (N' + 1)) zeroMessage)).drop 1 := by
    rw [List.range_succ_eq_map, List.map_cons, List.drop_succ_cons, List.drop_zero]
    rw [Nat.add_zero, Nat.mod_eq_of_lt hidx]
  rw [hsplit]
  by_cases h0 : (msgs.getD idx zeroMessage).Timestamp = 0
  · rw [if_pos h0]
    simp only [List.filter_cons, h0, List.drop_succ_cons, List.drop_zero]
    simp [hm]
  · rw [if_neg h0]
    simp only [List.filter_cons]
    have : ((msgs.getD idx zeroMessage).Timestamp != 0) = true := by
      simpa using h0
    simp only [this, if_true, List.drop_succ_cons, List.drop_zero]
    simp [hm]

lemma getD_replicate : ∀ (n j : Nat),
    (List.replicate n zeroMessage).getD j zeroMessage = zeroMessage
  | 0, _ => rfl
  | _ + 1, 0 => rfl
  | n + 1, j + 1 => getD_replicate n j

/-- Invariant of a buffer built by adding `ms` (all with non-zero timestamps)
to a fresh capacity-`N` buffer: shape facts, slot-sentinel structure, and the
`GetAll` characterisation. -/
lemma buildRB_inv (N : Nat) (hN : 0 < N) (ms : List Message)
    (hms : ∀ m ∈ ms, m.Timestamp ≠ 0) :
    (buildRB N ms).size = N ∧
    (buildRB N ms).messages.length = N ∧
    (buildRB N ms).index = ms.length % N ∧
    (∀ j, j < N →
      (((buildRB N ms).messages.getD j zeroMessage).Timestamp = 0 ↔ ms.length ≤ j)) ∧
    (buildRB N ms).GetAll = if ms.length ≤ N then ms else ms.drop (ms.length - N) := by
  induction ms using List.reverseRecOn with
  | nil =>
    refine ⟨rfl, by simp [buildRB, NewRingBuffer], by simp [buildRB, NewRingBuffer], ?_, ?_⟩
    · intro j hj
      simp [buildRB, NewRingBuffer, List.getD, List.getElem?_replicate, hj, zeroMessage]
    · simp only [buildRB, List.foldl_nil, List.length_nil, Nat.zero_le, if_true]
      rw [RingBuffer.GetAll, List.filter_eq_nil_iff]
      intro m hm
      simp only [List.mem_map] at hm
      obtain ⟨i, _, rfl⟩ := hm
      simp [NewRingBuffer, getD_replicate, zeroMessage]
  | append_singleton l a ih =>
    have hl : ∀ m ∈ l, m.Timestamp ≠ 0 := fun m hm => hms m (List.mem_append_left _ hm)
    have ha : a.Timestamp ≠ 0 := hms a (List.mem_append_right _ (List.mem_singleton.mpr rfl))
    obtain ⟨hsz, hlen, hidx, hsent, hget⟩ := ih hl
    have hbuild : buildRB N (l ++ [a]) = (buildRB N l).Add a := by
      simp [buildRB, List.foldl_append]
    set rb := buildRB N l with hrb
    set k := l.length with hk
    have hidxlt : rb.index < N := by rw [hidx]; exact Nat.mod_lt _ hN
    have hmodcase : k ≤ k % N ↔ k < N := by
      rcases Nat.lt_or_ge k N with h | h
      · rw [Nat.mod_eq_of_lt h]; omega
      · have := Nat.mod_lt k hN; omega
    have hheadIff : ((rb.messages.getD rb.index zeroMessage).Timestamp = 0 ↔ k < N) := by
      have h1 := hsent rb.index hidxlt
      have h2 : k ≤ rb.index ↔ k < N := by rw [hidx]; exact hmodcase
      exact h1.trans h2
    have hgetAdd := GetAll_Add rb a (hsz ▸ hN) (hlen.trans hsz.symm) (hsz ▸ hidxlt) ha
    refine ⟨?_, ?_, ?_, ?_, ?_⟩
    · rw [hbuild]; simpa [RingBuffer.Add] using hsz
    · rw [hbuild]; simpa [RingBuffer.Add] using hlen
    · rw [hbuild]
      simp only [RingBuffer.Add, List.length_append, List.length_singleton]
      rw [hidx, hsz, Nat.mod_add_mod]
    · intro j hj
      rw [hbuild]
      simp only [RingBuffer.Add, List.length_append, List.length_singleton]
      by_cases hje : j = rb.index
      · subst hje
        rw [getD_set_self _ _ _ (by omega)]
        have h1 : ¬ (k + 1 ≤ rb.index) := by rw [hidx]; have := Nat.mod_le k N; omega
        simp [ha, h1]
      · rw [getD_set_ne _ _ _ _ (fun h => hje h.symm)]
        rw [hsent j hj]
        rw [hidx] at hje
        constructor
        · intro h
          rcases Nat.lt_or_ge k N with hkN | hkN
          · rw [Nat.mod_eq_of_lt hkN] at hje; omega
          · omega
        · omega
    · rw [hbuild, hgetAdd, hget]
      by_cases hkN : k < N
      · have hhead : (rb.messages.getD rb.index zeroMessage).Timestamp = 0 := by
          rw [hheadIff]; exact hkN
        rw [if_pos hhead, if_pos (by omega : k ≤ N)]
        have : l.length + 1 ≤ N ∨ ¬ (l.length + 1 ≤ N) := em _
        simp only [List.length_append, List.length_singleton]
        rw [if_pos (by omega : k + 1 ≤ N)]
      · have hhead : ¬ (rb.messages.getD rb.index zeroMessage).Timestamp = 0 := by
          rw [hheadIff]; omega
        rw [if_neg hhead]
        simp only [List.length_append, List.length_singleton]
        rw [if_neg (by omega : ¬ (k + 1 ≤ N))]
        have hdrop1 : (if k ≤ N then l else l.drop (k - N)).drop 1 = l.drop (k + 1 - N) := by
          by_cases hkeq : k ≤ N
          · rw [if_pos hkeq]
            have : k = N := by omega
            rw [this]
            simp
          · rw [if_neg hkeq, List.drop_drop]
            congr 1
            omega
        rw [hdrop1, List.drop_append_of_le_length (by omega : k + 1 - N ≤ l.length)]

/-- C1: for a capacity-`N` buffer (`N > 0`) and any sequence `ms` of added
messages with non-zero timestamps, `GetAll` returns the added messages in
insertion order when `|ms| ≤ N`, and the most recent `N` of them in
insertion order when `|ms| > N`. -/
theorem C1_ringbuffer_getAll (N : Nat) (hN : 0 < N) (ms : List Message)
    (hms : ∀ m ∈ ms, m.Timestamp ≠ 0) :
    (buildRB N ms).GetAll =
      if ms.length ≤ N then ms else ms.drop (ms.length - N) :=
  (buildRB_inv N hN ms hms).2.2.2.2

/-- Concrete messages used by witnesses and counterexamples. -/
def msgA : Message := { zeroMessage with Timestamp := 1, Content := str "A" }

def msgB : Message := { zeroMessage with Timestamp := 2, Content := str "B" }

def msgC : Message := { zeroMessage with Timestamp := 3, Content := str "C" }

/-- C1 witness: capacity 2, three adds, `GetAll` returns the last two. -/
theorem C1_ringbuffer_getAll_witness :
    (buildRB 2 [msgA, msgB, msgC]).GetAll = [msgB, msgC] :=
  (C1_ringbuffer_getAll 2 (by decide) [msgA, msgB, msgC] (by decide)).trans (by decide)

/-- C2 counterexample: with capacity 3 and adds `A` then `B`, `GetLast 2`
returns `[B, A]` (newest first) while `GetAll` returns `[A, B]`; the result
is neither in chronological order nor a suffix of `GetAll`. -/
theorem C2_counterexample :
    (buildRB 3 [msgA, msgB]).GetLast 2 = [msgB, msgA] ∧
    (buildRB 3 [msgA, msgB]).GetAll = [msgA, msgB] ∧
    ¬ (buildRB 3 [msgA, msgB]).GetLast 2 <:+ (buildRB 3 [msgA, msgB]).GetAll := by
  decide

lemma reverse_map_range (g : Nat → Message) : ∀ n : Nat,
    ((List.range n).map g).reverse = (List.range n).map (fun t => g (n - 1 - t)) := by
  intro n
  induction n with
  | zero => simp
  | succ n ih =>
    conv_lhs => rw [List.range_succ]
    rw [List.map_append, List.reverse_append]
    simp only [List.map_singleton, List.reverse_singleton, List.singleton_append]
    rw [ih]
    conv_rhs => rw [List.range_succ_eq_map]
    simp only [List.map_cons, List.map_map, Nat.sub_zero, Nat.add_sub_cancel]
    congr 1
    apply List.map_congr_left
    intro t ht
    have := List.mem_range.mp ht
    simp only [Function.comp_apply]
    congr 1
    omega

/-- The reversed `GetLast` window is the tail of the `GetAll` scan. -/
lemma getLast_rev_suffix (msgs : List Message) (N idx n' : Nat) (hn' : n' ≤ N) :
    (((List.range n').map
        (fun i => msgs.getD ((idx + N - 1 - i) % N) zeroMessage)).filter
        (fun m => m.Timestamp != 0)).reverse <:+
    ((List.range N).map
        (fun i => msgs.getD ((idx + i) % N) zeroMessage)).filter
      (fun m => m.Timestamp != 0) := by
  have hrange : List.range N
      = List.range (N - n') ++ (List.range n').map (fun t => (N - n') + t) := by
    conv_lhs => rw [show N = (N - n') + n' by omega]
    exact List.range_add _ _
  have hB : (((List.range n').map
        (fun i => msgs.getD ((idx + N - 1 - i) % N) zeroMessage)).filter
        (fun m => m.Timestamp != 0)).reverse
      = (((List.range n').map (fun t => (N - n') + t)).map
          (fun i => msgs.getD ((idx + i) % N) zeroMessage)).filter
          (fun m => m.Timestamp != 0) := by
    rw [← List.filter_reverse, reverse_map_range]
    congr 1
    rw [List.map_map]
    apply List.map_congr_left
    intro t ht
    have ht' : t < n' := List.mem_range.mp ht
    simp only [Function.comp_apply]
    have harith : idx + N - 1 - (n' - 1 - t) = idx + (N - n' + t) := by omega
    rw [harith]
  rw [hB, hrange, List.map_append, List.filter_append]
  exact List.suffix_append _ _

/-- C2 amended: `GetLast n` returns at most `min n N` entries, and its
*reverse* is a suffix of `GetAll` — i.e. it lists the most recent entries in
reverse chronological (newest-first) order, not chronological order. -/
theorem C2_getLast_theorem (rb : RingBuffer) (n : Nat) :
    (rb.GetLast n).length ≤ min n rb.size ∧
    (rb.GetLast n).reverse <:+ rb.GetAll := by
  constructor
  · simp only [RingBuffer.GetLast]
    calc (((List.range (min n rb.size)).map _).filter _).length
        ≤ ((List.range (min n rb.size)).map
            (fun i => rb.messages.getD ((rb.index + rb.size - 1 - i) % rb.size)
              zeroMessage)).length := List.length_filter_le _ _
      _ = min n rb.size := by rw [List.length_map, List.length_range]
  · simp only [RingBuffer.GetLast, RingBuffer.GetAll]
    exact getLast_rev_suffix rb.messages rb.size rb.index (min n rb.size)
      (min_le_right _ _)

/-! ## Wire parser: `parsePrivMsg` and colour resolution (src/unnamed/part_000) -/

/-- One hexadecimal digit, as accepted by Go `strconv.ParseInt(…, 16, 0)`. -/
def parseHexDigit (c : Char) : Option Nat :=
  if 48 ≤ c.toNat ∧ c.toNat ≤ 57 then some (c.toNat - 48)
  else if 97 ≤ c.toNat ∧ c.toNat ≤ 102 then some (c.toNat - 87)
  else if 65 ≤ c.toNat ∧ c.toNat ≤ 70 then some (c.toNat - 55)
  else none

def isHexDigit (c : Char) : Bool := (parseHexDigit c).isSome

def parseHexNatCore (l : List Char) : Option Nat :=
  l.foldl (fun acc c => acc.bind (fun a => (parseHexDigit c).map (fun d => a * 16 + d)))
    (some 0)

/-- Go `strconv.ParseInt(s, 16, 0)`: optional sign, then at least one hex
digit.  (The two-character slices this embedding feeds it cannot overflow
64 bits.) -/
def parseIntHex (l : List Char) : Option Int :=
  match l with
  | [] => none
  | c :: rest =>
    if c = '+' then (if rest.isEmpty then none else (parseHexNatCore rest).map Int.ofNat)
    else if c = '-' then
      (if rest.isEmpty then none else (parseHexNatCore rest).map (fun n => -(n : Int)))
    else (parseHexNatCore l).map Int.ofNat

/-- The source discards the `ParseInt` error; Go then leaves the value `0`
for syntactically invalid input. -/
def parseIntHexOr0 (l : List Char) : Int := (parseIntHex l).getD 0

/-- One digit of Go `fmt %X` output (upper case). -/
def hexDigitChar (d : Nat) : Char :=
  if d < 10 then Char.ofNat (48 + d) else Char.ofNat (55 + d)

/-- Go `fmt.Sprintf("%02X", v)` for the values reachable here
(`-16 < v < 256`): two zero-padded upper-case hex digits, a sign-prefixed
digit for negative input. -/
def toHex2 (v : Int) : Str :=
  if v < 0 then ['-', hexDigitChar ((-v).toNat % 16)]
  else [hexDigitChar (v.toNat / 16 % 16), hexDigitChar (v.toNat % 16)]

/-- `convertToLightIfDark`: trim `#`, require six characters (otherwise the
input is returned unchanged), parse three channel bytes (parse errors give
0), brighten when the perceived luminance is below 128.  The float
comparison `0.299 r + 0.587 g + 0.114 b < 128` is written exactly over the
integers scaled by 1000, and `int64(float64(255-v) * 0.4)` equals
`(255-v)*2/5` in integer division for every reachable `v`. -/
def convertToLightIfDark (hexColor : Str) : Str :=
  let color := trimHash hexColor
  if color.length ≠ 6 then hexColor
  else
    let r := parseIntHexOr0 (color.take 2)
    let g := parseIntHexOr0 ((color.drop 2).take 2)
    let b := parseIntHexOr0 ((color.drop 4).take 2)
    if 299 * r + 587 * g + 114 * b < 128000 then
      let r := r + (255 - r) * 2 / 5
      let g := g + (255 - g) * 2 / 5
      let b := b + (255 - b) * 2 / 5
      '#' :: (toHex2 r ++ toHex2 g ++ toHex2 b)
    else
      '#' :: (toHex2 r ++ toHex2 g ++ toHex2 b)

/-- The fixed 15-colour default palette. -/
def twitchColors : List Str :=
  [str "#FF0000", str "#0000FF", str "#00FF00", str "#B22222", str "#FF7F50",
   str "#9ACD32", str "#FF4500", str "#2E8B57", str "#DAA520", str "#D2691E",
   str "#5F9EA0", str "#1E90FF", str "#FF69B4", str "#8A2BE2", str "#00FF7F"]

/-- Signed 64-bit wrap-around, the semantics of Go `int` arithmetic on a
64-bit platform. -/
def wrap64 (x : Int) : Int := (x + 2 ^ 63) % 2 ^ 64 - 2 ^ 63

/-- Go `abs` from the source: negation of the minimum integer wraps back to
itself. -/
def goAbs (n : Int) : Int := if n < 0 then wrap64 (-n) else n

/-- The rolling hash `hash = (hash<<5) - hash + int(char)` over the
lowercased username; one `wrap64` expresses the stepwise wrap-around of
`<<`, `-` and `+` (all congruent modulo 2^64). -/
def hashUsername (username : Str) : Int :=
  (toLowerStr username).foldl (fun h c => wrap64 (h * 32 - h + (c.toNat : Int))) 0

/-- `getTwitchDefaultColor`: palette entry at `abs(hash) % 15`.  Go `%` is
truncated (`Int.tmod`), so a negative `abs` result (the minimum-integer
case) gives a negative index and `colors[idx]` panics: `none`. -/
def getTwitchDefaultColor (username : Str) : Option Str :=
  let idx := (goAbs (hashUsername username)).tmod 15
  if idx < 0 then none else twitchColors.get? idx.toNat

/-- The colour block at the end of `parsePrivMsg`. -/
def resolveUserColor (tags : List (Str × Str)) (username : Str) : Option Str :=
  match tagLookup tags (str "color") with
  | some c =>
    if c ≠ [] then some (convertToLightIfDark c) else getTwitchDefaultColor username
  | none => some (str "#FFFFFF")

/-- The `@`-led tag block: runs to the first space, split on `;`, each entry
split at its first `=`; entries without `=` are dropped. -/
def parseTagsBlock (data : Str) : List (Str × Str) :=
  if startsWith (str "@") data then
    match strIndex (str " ") (data.drop 1) with
    | some tagEnd =>
      (splitOnChar ';' ((data.drop 1).take tagEnd)).filterMap (fun tag =>
        match splitFirst '=' tag with
        | [k, v] => some (k, v)
        | _ => none)
    | none => []
  else []

/-- Fallback username from the IRC prefix `:nick!user@host`. -/
def ircPrefixUsername (data : Str) : Str :=
  match strIndex (str ":") data with
  | some userStart =>
    match strIndex (str "!") (data.drop userStart) with
    | some userEnd => (data.drop (userStart + 1)).take (userEnd - 1)
    | none => []
  | none => []

/-- `display-name` tag if present and non-empty, else the IRC prefix. -/
def resolveUsername (data : Str) (tags : List (Str × Str)) : Str :=
  match tagLookup tags (str "display-name") with
  | some dn => if dn ≠ [] then dn else ircPrefixUsername data
  | none => ircPrefixUsername data

/-- `Client.parsePrivMsg`.  `now` models `time.Now()`.  `none` models both
the nil returns and the panic inside `getTwitchDefaultColor`. -/
def parsePrivMsg (data : Str) (now : Nat) : Option Message :=
  if (splitOnChar ' ' data).length < 4 then none
  else
    let tags := parseTagsBlock data
    match strIndex (str " PRIVMSG ") data with
    | none => none
    | some privmsgIndex =>
      let channelStart := privmsgIndex + 9
      match strIndex (str " :") (data.drop channelStart) with
      | none => none
      | some channelEnd =>
        let channel := (data.drop channelStart).take channelEnd
        let messageStart := channelStart + channelEnd + 2
        let content := if messageStart < data.length then data.drop messageStart else []
        let username := resolveUsername data tags
        match resolveUserColor tags username with
        | none => none
        | some color =>
          some { Username := username, Content := content, Channel := channel,
                 Tags := tags, RawData := data, Timestamp := now, Height := 0,
                 UserColor := color }

/-- The spec's notion of a valid resolved colour: `#` plus six hex digits. -/
def isValidColor (s : Str) : Bool :=
  match s with
  | c :: rest => c == '#' && rest.length == 6 && rest.all isHexDigit
  | [] => false

lemma parseHexDigit_lt {c : Char} {d : Nat} (h : parseHexDigit c = some d) : d < 16 := by
  unfold parseHexDigit at h
  split_ifs at h with h1 h2 h3 <;> simp_all <;> omega

lemma parseHexDigit_ne_plus {c : Char} {d : Nat} (h : parseHexDigit c = some d) :
    c ≠ '+' := by
  intro hc
  rw [hc] at h
  have hnone : parseHexDigit '+' = none := by decide
  rw [hnone] at h
  cases h

lemma parseHexDigit_ne_minus {c : Char} {d : Nat} (h : parseHexDigit c = some d) :
    c ≠ '-' := by
  intro hc
  rw [hc] at h
  have hnone : parseHexDigit '-' = none := by decide
  rw [hnone] at h
  cases h

lemma parseIntHexOr0_hex2 {c1 c2 : Char} (h1 : isHexDigit c1 = true)
    (h2 : isHexDigit c2 = true) :
    0 ≤ parseIntHexOr0 [c1, c2] ∧ parseIntHexOr0 [c1, c2] ≤ 255 := by
  obtain ⟨d1, hd1⟩ := Option.isSome_iff_exists.mp h1
  obtain ⟨d2, hd2⟩ := Option.isSome_iff_exists.mp h2
  have hb1 := parseHexDigit_lt hd1
  have hb2 := parseHexDigit_lt hd2
  have hcore : parseHexNatCore [c1, c2] = some (d1 * 16 + d2) := by
    unfold parseHexNatCore
    rw [List.foldl_cons, List.foldl_cons, List.foldl_nil]
    simp [hd1, hd2]
  simp only [parseIntHexOr0, parseIntHex, if_neg (parseHexDigit_ne_plus hd1),
    if_neg (parseHexDigit_ne_minus hd1), hcore, Option.map_some', Option.getD_some]
  rw [Int.ofNat_eq_natCast]
  omega

lemma parseIntHexOr0_bounds (l : List Char) (hl : l.length = 2)
    (hh : ∀ c ∈ l, isHexDigit c = true) :
    0 ≤ parseIntHexOr0 l ∧ parseIntHexOr0 l ≤ 255 := by
  match l, hl with
  | [c1, c2], _ =>
    exact parseIntHexOr0_hex2 (hh c1 (by simp)) (hh c2 (by simp))

lemma hexDigitChar_isHex {d : Nat} (hd : d < 16) : isHexDigit (hexDigitChar d) = true := by
  interval_cases d <;> decide

lemma toHex2_valid (v : Int) (hv0 : 0 ≤ v) :
    (toHex2 v).length = 2 ∧ ∀ c ∈ toHex2 v, isHexDigit c = true := by
  rw [toHex2, if_neg (by omega)]
  refine ⟨rfl, ?_⟩
  intro c hc
  simp only [List.mem_cons, List.not_mem_nil, or_false] at hc
  rcases hc with rfl | rfl
  · exact hexDigitChar_isHex (Nat.mod_lt _ (by omega))
  · exact hexDigitChar_isHex (Nat.mod_lt _ (by omega))

lemma isValidColor_hash (l : Str) (h6 : l.length = 6)
    (hhex : ∀ c ∈ l, isHexDigit c = true) : isValidColor ('#' :: l) = true := by
  simpa [isValidColor, h6, List.all_eq_true] using hhex

lemma isValidColor_triple (r g b : Int) (hr : 0 ≤ r) (hg : 0 ≤ g) (hb : 0 ≤ b) :
    isValidColor ('#' :: (toHex2 r ++ toHex2 g ++ toHex2 b)) = true := by
  obtain ⟨hrl, hrh⟩ := toHex2_valid r hr
  obtain ⟨hgl, hgh⟩ := toHex2_valid g hg
  obtain ⟨hbl, hbh⟩ := toHex2_valid b hb
  apply isValidColor_hash
  · simp [hrl, hgl, hbl]
  · intro c hc
    simp only [List.mem_append] at hc
    rcases hc with (hc | hc) | hc
    · exact hrh c hc
    · exact hgh c hc
    · exact hbh c hc

/-- Well-formed six-hex-digit input yields a valid colour. -/
lemma convertToLightIfDark_valid (v : Str) (hlen : (trimHash v).length = 6)
    (hhex : ∀ c ∈ trimHash v, isHexDigit c = true) :
    isValidColor (convertToLightIfDark v) = true := by
  simp only [convertToLightIfDark]
  rw [if_neg (fun hc => hc hlen)]
  have htake : ((trimHash v).take 2).length = 2 := by
    rw [List.length_take, hlen]; omega
  have hd2 : (((trimHash v).drop 2).take 2).length = 2 := by
    rw [List.length_take, List.length_drop, hlen]; omega
  have hd4 : (((trimHash v).drop 4).take 2).length = 2 := by
    rw [List.length_take, List.length_drop, hlen]; omega
  obtain ⟨hr0, hr255⟩ := parseIntHexOr0_bounds _ htake
    (fun c hc => hhex c (List.mem_of_mem_take hc))
  obtain ⟨hg0, hg255⟩ := parseIntHexOr0_bounds _ hd2
    (fun c hc => hhex c (List.mem_of_mem_drop (List.mem_of_mem_take hc)))
  obtain ⟨hb0, hb255⟩ := parseIntHexOr0_bounds _ hd4
    (fun c hc => hhex c (List.mem_of_mem_drop (List.mem_of_mem_take hc)))
  by_cases hlum : 299 * parseIntHexOr0 ((trimHash v).take 2)
      + 587 * parseIntHexOr0 (((trimHash v).drop 2).take 2)
      + 114 * parseIntHexOr0 (((trimHash v).drop 4).take 2) < 128000
  · rw [if_pos hlum]
    exact isValidColor_triple _ _ _ (by omega) (by omega) (by omega)
  · rw [if_neg hlum]
    exact isValidColor_triple _ _ _ hr0 hg0 hb0

/-- Input whose trimmed form is not six characters long is passed through. -/
lemma convertToLightIfDark_passthrough (v : Str) (h : (trimHash v).length ≠ 6) :
    convertToLightIfDark v = v := by
  simp only [convertToLightIfDark]
  rw [if_pos h]

/-- A palette pick that does not panic is a valid colour. -/
lemma getTwitchDefaultColor_valid {un col : Str}
    (h : getTwitchDefaultColor un = some col) : isValidColor col = true := by
  simp only [getTwitchDefaultColor] at h
  split_ifs at h
  have hmem : col ∈ twitchColors := List.get?_mem h
  have hall : ∀ x ∈ twitchColors, isValidColor x = true := by decide
  exact hall col hmem

/-- The colour stored in a successfully parsed message is exactly the result
of the colour-resolution block on its tags and username. -/
lemma parsePrivMsg_color {data : Str} {now : Nat} {msg : Message}
    (h : parsePrivMsg data now = some msg) :
    resolveUserColor msg.Tags msg.Username = some msg.UserColor := by
  simp only [parsePrivMsg] at h
  by_cases hp : (splitOnChar ' ' data).length < 4
  · rw [if_pos hp] at h
    cases h
  · rw [if_neg hp] at h
    cases hidx : strIndex (str " PRIVMSG ") data with
    | none => rw [hidx] at h; cases h
    | some pIdx =>
      rw [hidx] at h
      dsimp only [] at h
      cases hend : strIndex (str " :") (data.drop (pIdx + 9)) with
      | none => rw [hend] at h; cases h
      | some cEnd =>
        rw [hend] at h
        dsimp only [] at h
        cases hcol : resolveUserColor (parseTagsBlock data)
            (resolveUsername data (parseTagsBlock data)) with
        | none => rw [hcol] at h; cases h
        | some color =>
          rw [hcol] at h
          dsimp only [] at h
          injection h with h'
          subst h'
          exact hcol

/-- C3 amended: in a successfully parsed message the colour is a valid
`#`-plus-six-hex-digits value whenever the colour tag is absent, present but
empty, or carries a value whose `#`-trimmed form is six hex digits; a
present non-empty value of any other trimmed length is stored verbatim
(so e.g. `#FFF` survives unconverted, refuting the original claim). -/
theorem C3_color_theorem (data : Str) (now : Nat) (msg : Message)
    (h : parsePrivMsg data now = some msg) :
    (tagLookup msg.Tags (str "color") = none → isValidColor msg.UserColor = true) ∧
    (tagLookup msg.Tags (str "color") = some [] → isValidColor msg.UserColor = true) ∧
    (∀ v, tagLookup msg.Tags (str "color") = some v → v ≠ [] →
      (trimHash v).length = 6 → (∀ c ∈ trimHash v, isHexDigit c = true) →
      isValidColor msg.UserColor = true) ∧
    (∀ v, tagLookup msg.Tags (str "color") = some v → v ≠ [] →
      (trimHash v).length ≠ 6 → msg.UserColor = v) := by
  have hres := parsePrivMsg_color h
  refine ⟨?_, ?_, ?_, ?_⟩
  · intro hnone
    rw [resolveUserColor, hnone] at hres
    injection hres with h'
    rw [← h']
    decide
  · intro hempty
    rw [resolveUserColor, hempty] at hres
    dsimp only [] at hres
    rw [if_neg (by simp)] at hres
    exact getTwitchDefaultColor_valid hres
  · intro v hv hvne hlen hhex
    rw [resolveUserColor, hv] at hres
    dsimp only [] at hres
    rw [if_pos hvne] at hres
    injection hres with h'
    rw [← h']
    exact convertToLightIfDark_valid v hlen hhex
  · intro v hv hvne hlen
    rw [resolveUserColor, hv] at hres
    dsimp only [] at hres
    rw [if_pos hvne] at hres
    injection hres with h'
    rw [← h']
    exact convertToLightIfDark_passthrough v hlen

/-- The witness message: the concrete parse of a line with a well-formed
dark colour tag. -/
def msgWit : Message :=
  (parsePrivMsg (str "@color=#123456;display-name=Bob :bob!bob@h PRIVMSG #ch :hi") 5).getD
    zeroMessage

/-- C3 witness: on the concrete line the resolved colour `#708599` is valid. -/
theorem C3_color_witness : isValidColor msgWit.UserColor = true :=
  (C3_color_theorem (str "@color=#123456;display-name=Bob :bob!bob@h PRIVMSG #ch :hi") 5
      msgWit (by decide)).2.2.1 (str "#123456") (by decide) (by decide) (by decide)
    (by decide)

/-- C3 counterexample: the line with colour tag `#FFF` parses successfully
and stores the malformed `#FFF` verbatim, which is not a 6-hex-digit
colour — the claimed invariant fails. -/
theorem C3_counterexample :
    (parsePrivMsg (str "@color=#FFF :nick!nick@host PRIVMSG #chan :hi") 5).map
        (fun m => m.UserColor) = some (str "#FFF") ∧
    (parsePrivMsg (str "@color=#FFF :nick!nick@host PRIVMSG #chan :hi") 5).map
        (fun m => isValidColor m.UserColor) = some false := by
  constructor
  · decide
  · decide

/-- The 13-character username whose rolling hash is exactly `-2^63` (its
code points are the base-31 digits of `2^63`; all are control characters,
unaffected by lowercasing). -/
def badUsername : Str :=
  [Char.ofNat 11, Char.ofNat 22, Char.ofNat 0, Char.ofNat 3, Char.ofNat 18,
   Char.ofNat 9, Char.ofNat 5, Char.ofNat 17, Char.ofNat 18, Char.ofNat 10,
   Char.ofNat 4, Char.ofNat 3, Char.ofNat 8]

set_option maxRecDepth 8192 in
/-- C4: a username hashing to the minimum 64-bit integer defeats `abs`
(`abs(minInt) = minInt`), the palette index `minInt % 15 = -8` is negative,
and `colors[-8]` panics — the resolution is not total, refuting the claim
that every username gets a palette entry. -/
theorem C4_defaultColor_bug :
    hashUsername badUsername = -(2 ^ 63) ∧
    (goAbs (hashUsername badUsername)).tmod 15 = -8 ∧
    getTwitchDefaultColor badUsername = none := by
  refine ⟨by decide, by decide, by decide⟩

/-! ## Emote engine (src/emotes.go) -/

structure EmotePosition where
  Start : Int
  End : Int
deriving DecidableEq

structure EmoteInfo where
  ID : Str
  Name : Str
  URL : Str
  FilePath : Str
  ImageURL : Str
  Positions : List EmotePosition
deriving DecidableEq

/-- The six global catalog maps (each Go `map[...]` modelled as an
association list; `channels` carries each channel's 7TV emote map). -/
structure Catalogs where
  channels : List (Str × List (Str × EmoteInfo))
  global7TVEmotes : List (Str × EmoteInfo)
  globalBTTVEmotes : List (Str × EmoteInfo)
  globalFFZEmotes : List (Str × EmoteInfo)
  channelsBTTV : List (Str × List (Str × EmoteInfo))
  channelsFFZ : List (Str × List (Str × EmoteInfo))
deriving DecidableEq

def lookupAssoc {α : Type} (m : List (Str × α)) (k : Str) : Option α :=
  (m.find? (fun p => p.1 == k)).map (·.2)

/-- `findEmote`: the fixed precedence chain
channel 7TV → global 7TV → channel BTTV → global BTTV → channel FFZ →
global FFZ, first hit wins. -/
def findEmote (cats : Catalogs) (channelName word : Str) : Option EmoteInfo :=
  let ch := trimHash channelName
  match (lookupAssoc cats.channels ch).bind (fun em => lookupAssoc em word) with
  | some e => some e
  | none =>
  match lookupAssoc cats.global7TVEmotes word with
  | some e => some e
  | none =>
  match (lookupAssoc cats.channelsBTTV ch).bind (fun em => lookupAssoc em word) with
  | some e => some e
  | none =>
  match lookupAssoc cats.globalBTTVEmotes word with
  | some e => some e
  | none =>
  match (lookupAssoc cats.channelsFFZ ch).bind (fun em => lookupAssoc em word) with
  | some e => some e
  | none => lookupAssoc cats.globalFFZEmotes word

def parseDecDigit (c : Char) : Option Nat :=
  if 48 ≤ c.toNat ∧ c.toNat ≤ 57 then some (c.toNat - 48) else none

def parseDecNatCore (l : List Char) : Option Nat :=
  l.foldl (fun acc c => acc.bind (fun a => (parseDecDigit c).map (fun d => a * 10 + d)))
    (some 0)

/-- Go `strconv.Atoi`: optional sign, at least one decimal digit, value in
64-bit range (out-of-range input reports an error, which the call sites
treat as a skip). -/
def goAtoi (l : List Char) : Option Int :=
  match l with
  | [] => none
  | c :: rest =>
    if c = '+' then
      (if rest.isEmpty then none
        else (parseDecNatCore rest).bind (fun n =>
          if (n : Int) ≤ 2 ^ 63 - 1 then some (n : Int) else none))
    else if c = '-' then
      (if rest.isEmpty then none
        else (parseDecNatCore rest).bind (fun n =>
          if (n : Int) ≤ 2 ^ 63 then some (-(n : Int)) else none))
    else (parseDecNatCore l).bind (fun n =>
      if (n : Int) ≤ 2 ^ 63 - 1 then some (n : Int) else none)

/-- Go rune-slice `l[lo:hi]`: panics (`none`) unless `0 ≤ lo ≤ hi ≤ len l`. -/
def goSliceInt (l : List Char) (lo hi : Int) : Option (List Char) :=
  if 0 ≤ lo ∧ lo ≤ hi ∧ hi ≤ (l.length : Int) then
    some ((l.drop lo.toNat).take (hi - lo).toNat)
  else none

def twitchEmoteURL (emoteID : Str) : Str :=
  str "https://static-cdn.jtvnw.net/emoticons/v2/" ++ emoteID ++ str "/default/dark/1.0"

/-- The native (tag-declared) emote pass of `ParseEmotes`: groups split on
`/`, `id:positions` split on `:`, positions on `,`, each `start-end` on `-`;
non-numeric pieces are skipped, a range whose end reaches past the last
rune is skipped, and the remaining ranges slice the rune array —
`runes[start : end+1]`, whose panic is `none`. -/
def parseNativeEmotes (emotesTag : Option Str) (contentRunes : List Char) :
    Option (List EmoteInfo) :=
  match emotesTag with
  | some tagv =>
    if tagv ≠ [] then
      (splitOnChar '/' tagv).foldlM (fun acc group =>
        match splitOnChar ':' group with
        | [emoteID, positions] =>
          (splitOnChar ',' positions).foldlM (fun acc2 posStr =>
            match splitOnChar '-' posStr with
            | [sStr, eStr] =>
              match goAtoi sStr, goAtoi eStr with
              | some start, some en =>
                if en ≥ (contentRunes.length : Int) then some acc2
                else
                  (goSliceInt contentRunes start (en + 1)).map (fun name =>
                    acc2 ++ [{ ID := emoteID, Name := name,
                               URL := twitchEmoteURL emoteID,
                               FilePath := [], ImageURL := [],
                               Positions := [{ Start := start, End := en }] }])
              | _, _ => some acc2
            | _ => some acc2) acc
        | _ => some acc) ([] : List EmoteInfo)
    else some []
  | none => some []

/-- Rune positions covered by the native emotes (the Go `covered` array;
marking stops at the array bound, and lookups only occur below it). -/
def coveredFun (native : List EmoteInfo) (i : Nat) : Bool :=
  native.any (fun e => e.Positions.any (fun p =>
    decide (p.Start ≤ (i : Int)) && decide ((i : Int) ≤ p.End)))

/-- Advance past spaces and covered positions. -/
def skipCovered (runes : List Char) (covered : Nat → Bool) (current : Nat) : Nat :=
  if h : current < runes.length ∧ (runes.getD current ' ' = ' ' ∨ covered current = true)
  then skipCovered runes covered (current + 1)
  else current
termination_by runes.length - current
decreasing_by simp_wf; omega

/-- Advance to the end of a word (non-space, uncovered run). -/
def skipWord (runes : List Char) (covered : Nat → Bool) (current : Nat) : Nat :=
  if h : current < runes.length ∧ runes.getD current ' ' ≠ ' ' ∧ covered current = false
  then skipWord runes covered (current + 1)
  else current
termination_by runes.length - current
decreasing_by simp_wf; omega

/-- The third-party word scan of `ParseEmotes`.  `fuel` bounds the number of
outer loop iterations; each iteration advances `current` by at least one, so
`runes.length + 1` iterations always suffice. -/
def scanWords (cats : Catalogs) (channel : Str) (runes : List Char)
    (covered : Nat → Bool) : Nat → Nat → List EmoteInfo → List EmoteInfo
  | 0, _, acc => acc
  | fuel + 1, current, acc =>
    let cur1 := skipCovered runes covered current
    if cur1 < runes.length then
      let cur2 := skipWord runes covered cur1
      let acc' :=
        if (cur1 : Int) < (runes.length : Int) ∧ (cur2 : Int) - 1 ≥ (cur1 : Int) then
          let word := (runes.drop cur1).take (cur2 - cur1)
          match findEmote cats channel word with
          | some emote =>
            acc ++ [{ ID := emote.ID, Name := word, URL := emote.URL,
                      FilePath := emote.FilePath, ImageURL := [],
                      Positions := [{ Start := (cur1 : Int), End := (cur2 : Int) - 1 }] }]
          | none => acc
        else acc
      scanWords cats channel runes covered fuel cur2 acc'
    else acc

def emoteStart (e : EmoteInfo) : Int :=
  (e.Positions.getD 0 { Start := 0, End := 0 }).Start

def insertByStart (e : EmoteInfo) : List EmoteInfo → List EmoteInfo
  | [] => [e]
  | x :: xs =>
    if emoteStart e < emoteStart x then e :: x :: xs else x :: insertByStart e xs

/-- Ascending sort by first occurrence start (`sort.Slice` is an unstable
sort by this key; insertion sort is one admissible result). -/
def sortByStart (l : List EmoteInfo) : List EmoteInfo := l.foldl (fun r e => insertByStart e r) []

/-- `ParseEmotes`: native pass, cover marking, third-party word scan, sort.
`none` models the panic of an out-of-range native slice. -/
def parseEmotes (cats : Catalogs) (msg : Message) : Option (List EmoteInfo) :=
  match parseNativeEmotes (tagLookup msg.Tags (str "emotes")) msg.Content with
  | none => none
  | some native =>
    let covered := coveredFun native
    some (sortByStart
      (scanWords cats msg.Channel msg.Content covered (msg.Content.length + 1) 0 native))

def emptyCatalogs : Catalogs := ⟨[], [], [], [], [], []⟩

/-- The message that crashes `ParseEmotes`: native tag range `5-2` on a
10-rune content.  `end = 2` passes the only bounds check (`end < len`), yet
`runes[5:3]` is a panicking slice. -/
def msgEmoteBug : Message :=
  { zeroMessage with
    Content := str "Kappa test"
    Tags := [(str "emotes", str "25:5-2")]
    Timestamp := 1
    Channel := str "#chan" }

/-- C5: `ParseEmotes` panics (models as `none`) on a native range whose
start exceeds its end by more than one: the out-of-range slice
`runes[start : end+1]` is reachable, refuting the discard-and-continue
claim. -/
theorem C5_parseEmotes_bug : parseEmotes emptyCatalogs msgEmoteBug = none := by decide

/-- C6: `findEmote` is exactly the first hit of the six-layer precedence
chain, and within each provider a channel-scoped hit is returned whenever
resolution reaches that provider, regardless of the global catalog. -/
theorem C6_findEmote_theorem (cats : Catalogs) (channelName word : Str) :
    (findEmote cats channelName word =
      [(lookupAssoc cats.channels (trimHash channelName)).bind
          (fun em => lookupAssoc em word),
        lookupAssoc cats.global7TVEmotes word,
        (lookupAssoc cats.channelsBTTV (trimHash channelName)).bind
          (fun em => lookupAssoc em word),
        lookupAssoc cats.globalBTTVEmotes word,
        (lookupAssoc cats.channelsFFZ (trimHash channelName)).bind
          (fun em => lookupAssoc em word),
        lookupAssoc cats.globalFFZEmotes word].findSome? id) ∧
    (∀ e, (lookupAssoc cats.channels (trimHash channelName)).bind
        (fun em => lookupAssoc em word) = some e →
      findEmote cats channelName word = some e) ∧
    (∀ e, (lookupAssoc cats.channels (trimHash channelName)).bind
        (fun em => lookupAssoc em word) = none →
      lookupAssoc cats.global7TVEmotes word = none →
      (lookupAssoc cats.channelsBTTV (trimHash channelName)).bind
        (fun em => lookupAssoc em word) = some e →
      findEmote cats channelName word = some e) ∧
    (∀ e, (lookupAssoc cats.channels (trimHash channelName)).bind
        (fun em => lookupAssoc em word) = none →
      lookupAssoc cats.global7TVEmotes word = none →
      (lookupAssoc cats.channelsBTTV (trimHash channelName)).bind
        (fun em => lookupAssoc em word) = none →
      lookupAssoc cats.globalBTTVEmotes word = none →
      (lookupAssoc cats.channelsFFZ (trimHash channelName)).bind
        (fun em => lookupAssoc em word) = some e →
      findEmote cats channelName word = some e) := by
  refine ⟨?_, ?_, ?_, ?_⟩
  · cases h1 : (lookupAssoc cats.channels (trimHash channelName)).bind
        (fun em => lookupAssoc em word) with
    | some e => simp [findEmote, h1, List.findSome?_cons]
    | none =>
      cases h2 : lookupAssoc cats.global7TVEmotes word with
      | some e => simp [findEmote, h1, h2, List.findSome?_cons]
      | none =>
        cases h3 : (lookupAssoc cats.channelsBTTV (trimHash channelName)).bind
            (fun em => lookupAssoc em word) with
        | some e => simp [findEmote, h1, h2, h3, List.findSome?_cons]
        | none =>
          cases h4 : lookupAssoc cats.globalBTTVEmotes word with
          | some e => simp [findEmote, h1, h2, h3, h4, List.findSome?_cons]
          | none =>
            cases h5 : (lookupAssoc cats.channelsFFZ (trimHash channelName)).bind
                (fun em => lookupAssoc em word) with
            | some e => simp [findEmote, h1, h2, h3, h4, h5, List.findSome?_cons]
            | none =>
              simp only [findEmote, h1, h2, h3, h4, h5, List.findSome?_cons, id]
              cases lookupAssoc cats.globalFFZEmotes word <;> rfl
  · intro e h1
    simp [findEmote, h1]
  · intro e h1 h2 h3
    simp [findEmote, h1, h2, h3]
  · intro e h1 h2 h3 h4 h5
    simp [findEmote, h1, h2, h3, h4, h5]

/-- A channel-scoped and a global 7TV entry sharing the display name. -/
def eChan7 : EmoteInfo :=
  { ID := str "chan-entry", Name := str "Pog", URL := str "u1", FilePath := []
    ImageURL := [], Positions := [] }

def eGlob7 : EmoteInfo :=
  { ID := str "glob-entry", Name := str "Pog", URL := str "u2", FilePath := []
    ImageURL := [], Positions := [] }

def witCats : Catalogs :=
  { channels := [(str "chan", [(str "Pog", eChan7)])]
    global7TVEmotes := [(str "Pog", eGlob7)]
    globalBTTVEmotes := []
    globalFFZEmotes := []
    channelsBTTV := []
    channelsFFZ := [] }

/-- C6 witness: with `Pog` in both the channel and the global 7TV catalog,
resolution returns the channel-scoped entry. -/
theorem C6_findEmote_witness :
    findEmote witCats (str "#chan") (str "Pog") = some eChan7 :=
  (C6_findEmote_theorem witCats (str "#chan") (str "Pog")).2.1 eChan7 (by decide)

/-! ## Client lifecycle (src/unnamed/part_000: Connect / Stop / listen) -/

/-- The lock-guarded flag pair of a `Client` plus the closable resources:
the socket and the four channels (closing a closed Go channel panics). -/
structure ClientState where
  connected : Bool
  stopped : Bool
  connOpen : Bool
  stopChanClosed : Bool
  messageChanClosed : Bool
  rewardChanClosed : Bool
  errorChanClosed : Bool
deriving DecidableEq

/-- `NewClient`: not connected, not stopped, all channels open. -/
def newClientState : ClientState :=
  { connected := false, stopped := false, connOpen := false
    stopChanClosed := false, messageChanClosed := false
    rewardChanClosed := false, errorChanClosed := false }

/-- `Client.Connect`: on a successful dial the socket is open and the flags
are set `connected = true`, `stopped = false`; a failed dial leaves the
state unchanged (the error is returned). -/
def ClientState.connect (s : ClientState) (dialOk : Bool) : ClientState :=
  if dialOk then { s with connOpen := true, connected := true, stopped := false }
  else s

/-- `Client.Stop`: a no-op when already stopped; otherwise sets the flags,
closes the socket, then closes `stopChan` and the three delivery channels.
Closing an already-closed channel panics: `none`. -/
def ClientState.stop (s : ClientState) : Option ClientState :=
  if s.stopped then some s
  else if s.stopChanClosed || s.messageChanClosed || s.rewardChanClosed
      || s.errorChanClosed then none
  else some { s with
    stopped := true, connected := false, connOpen := false
    stopChanClosed := true, messageChanClosed := true
    rewardChanClosed := true, errorChanClosed := true }

/-- The `listen` goroutine's deferred exit: clears `connected` and closes
the socket (a double `net.Conn.Close` only returns an error). -/
def ClientState.listenExit (s : ClientState) : ClientState :=
  { s with connected := false, connOpen := false }

/-- C7 counterexample: connect, stop (succeeds), connect again — the final
state has `stopped = false` and `connected = true`, so a completed `Stop` is
not absorbing under a later `Connect` (which resets both flags). -/
theorem C7_counterexample :
    (ClientState.stop (newClientState.connect true)).map (fun s => s.connect true)
      = some { connected := true, stopped := false, connOpen := true
               stopChanClosed := true, messageChanClosed := true
               rewardChanClosed := true, errorChanClosed := true } := by
  decide

/-- C7 amended: a stopped client stays stopped under every operation except
a successful `Connect`: a repeated `Stop` is the identity, a `listen` exit
and a failed dial preserve `stopped`, while a successful dial un-stops and
re-connects the client. -/
theorem C7_stopped_theorem (s : ClientState) (h : s.stopped = true) :
    s.stop = some s ∧
    (s.listenExit).stopped = true ∧
    (s.connect false).stopped = true ∧
    (s.connect true).stopped = false ∧ (s.connect true).connected = true := by
  refine ⟨?_, ?_, ?_, ?_, ?_⟩
  · rw [ClientState.stop, if_pos h]
  · simpa [ClientState.listenExit] using h
  · simpa [ClientState.connect] using h
  · simp [ClientState.connect]
  · simp [ClientState.connect]

/-- C7 amended witness at the concrete post-`Stop` state. -/
theorem C7_stopped_witness :
    ({ connected := false, stopped := true, connOpen := false
       stopChanClosed := true, messageChanClosed := true
       rewardChanClosed := true, errorChanClosed := true } : ClientState).stop
      = some { connected := false, stopped := true, connOpen := false
               stopChanClosed := true, messageChanClosed := true
               rewardChanClosed := true, errorChanClosed := true } :=
  (C7_stopped_theorem _ (by decide)).1

/-- C8: a `Stop` that ran on a not-yet-stopped client closes the three
delivery channels, and a second `Stop` on the resulting state is a no-op
(`some s'` — in particular no close is attempted again, so no panic). -/
theorem C8_stop_idempotent (s s' : ClientState) (h0 : s.stopped = false)
    (h : s.stop = some s') :
    s'.stopped = true ∧
    s'.messageChanClosed = true ∧ s'.rewardChanClosed = true ∧
    s'.errorChanClosed = true ∧
    s'.stop = some s' := by
  rw [ClientState.stop, if_neg (by simp [h0])] at h
  by_cases hc : s.stopChanClosed || s.messageChanClosed || s.rewardChanClosed
      || s.errorChanClosed
  · rw [if_pos hc] at h
    cases h
  · rw [if_neg hc] at h
    injection h with h'
    subst h'
    refine ⟨rfl, rfl, rfl, rfl, ?_⟩
    rw [ClientState.stop, if_pos rfl]

/-- C8 witness: a fresh connected client, stopped once, then stopped again. -/
theorem C8_stop_idempotent_witness :
    ((newClientState.connect true).stop.getD newClientState).stop
      = some ((newClientState.connect true).stop.getD newClientState) :=
  (C8_stop_idempotent (newClientState.connect true)
    ((newClientState.connect true).stop.getD newClientState) (by decide)
    (by decide)).2.2.2.2

/-! ## Session supervisor (src/src/app.go) -/

/-- `App.ConnectToAllChannels`, with the per-channel dial outcome abstracted
as `connectOk`.  An empty channel list returns success immediately; with
channels configured, the per-channel goroutines report into the `errors` /
`successes` channels (collected here in configured order), and only the case
"some errors and zero successes" returns the aggregate error carrying every
per-channel failure message; partial failure is only logged. -/
def connectToAllChannels (chans : List Str) (connectOk : Str → Bool) :
    Except (List Str) Unit :=
  if chans.length = 0 then .ok ()
  else
    let connectionErrors :=
      (chans.filter (fun c => !connectOk c)).map (fun c => str "failed to connect to " ++ c)
    let successfulConnections := chans.filter (fun c => connectOk c)
    if connectionErrors.length > 0 ∧ successfulConnections.length = 0 then
      .error connectionErrors
    else .ok ()

/-- C9 counterexample: with zero configured channels the call succeeds even
though no channel connected, refuting "succeeds iff at least one channel
connects". -/
theorem C9_counterexample :
    connectToAllChannels [] (fun _ => false) = .ok () ∧
    ([] : List Str).filter (fun c => (fun _ => false) c) = [] := by
  constructor
  · rfl
  · rfl

/-- C9 amended: with at least one configured channel, connect-all succeeds
iff some channel connects; when every channel fails, the aggregate error
lists one failure message per configured channel (all of them). -/
theorem C9_connectAll_theorem (chans : List Str) (connectOk : Str → Bool)
    (hne : chans ≠ []) :
    (connectToAllChannels chans connectOk = .ok () ↔ ∃ c ∈ chans, connectOk c = true) ∧
    ((∀ c ∈ chans, connectOk c = false) →
      connectToAllChannels chans connectOk
        = .error ((chans.filter (fun c => !connectOk c)).map
            (fun c => str "failed to connect to " ++ c)) ∧
      chans.filter (fun c => !connectOk c) = chans) := by
  have hlen : ¬ chans.length = 0 := by
    simpa [List.length_eq_zero] using hne
  constructor
  · rw [connectToAllChannels, if_neg hlen]
    by_cases hex : ∃ c ∈ chans, connectOk c = true
    · rw [if_neg]
      · simpa using hex
      · intro hc
        obtain ⟨c, hcmem, hcok⟩ := hex
        have : c ∈ chans.filter (fun c => connectOk c) := by
          rw [List.mem_filter]; exact ⟨hcmem, hcok⟩
        rw [List.length_eq_zero] at hc
        rw [hc.2] at this
        cases this
    · rw [if_pos]
      · constructor
        · intro h; cases h
        · intro h; exact absurd h hex
      · push_neg at hex
        constructor
        · have : chans.filter (fun c => !connectOk c) = chans := by
            apply List.filter_eq_self.mpr
            intro c hc
            simp [hex c hc]
          rw [this, List.length_map]
          omega
        · rw [List.length_eq_zero, List.filter_eq_nil_iff]
          intro c hc
          simp [hex c hc]
  · intro hall
    have hfilter : chans.filter (fun c => !connectOk c) = chans := by
      apply List.filter_eq_self.mpr
      intro c hc
      simp [hall c hc]
    refine ⟨?_, hfilter⟩
    rw [connectToAllChannels, if_neg hlen, if_pos]
    constructor
    · rw [hfilter, List.length_map]
      omega
    · rw [List.length_eq_zero, List.filter_eq_nil_iff]
      intro c hc
      simp [hall c hc]

/-- C9 witness: three configured channels of which exactly one (`b`) fails —
the aggregate result is success. -/
theorem C9_connectAll_witness :
    connectToAllChannels [str "a", str "b", str "c"]
        (fun c => !(c == str "b")) = .ok () :=
  (C9_connectAll_theorem [str "a", str "b", str "c"] (fun c => !(c == str "b"))
      (by decide)).1.mpr ⟨str "a", by decide, by decide⟩

/-- Per-channel connection entry of the supervisor map: the
`ChannelConnection.isConnected` flag, whether the forwarding goroutine is
still running, and whether the client session (read loop) is still alive. -/
structure ConnEntry where
  isConnected : Bool
  forwarding : Bool
  clientAlive : Bool
deriving DecidableEq

/-- Supervisor state: the channel→connection map and the focused channel
(`""` = none). -/
structure AppState where
  connections : List (Str × ConnEntry)
  activeChannel : Str
deriving DecidableEq

/-- Both `ConnectToChannel` and `DisconnectFromChannel` prepend `#`. -/
def normalizeChannel (ch : Str) : Str :=
  if startsWith (str "#") ch then ch else '#' :: ch

def setAssoc {α : Type} (m : List (Str × α)) (k : Str) (v : α) : List (Str × α) :=
  if (lookupAssoc m k).isSome then m.map (fun p => if p.1 == k then (k, v) else p)
  else m ++ [(k, v)]

def removeAssoc {α : Type} (m : List (Str × α)) (k : Str) : List (Str × α) :=
  m.filter (fun p => !(p.1 == k))

def updateAssoc {α : Type} (m : List (Str × α)) (k : Str) (f : α → α) :
    List (Str × α) :=
  m.map (fun p => if p.1 == k then (p.1, f p.2) else p)

/-- The supervisor events the claims concern: a dial that succeeds, a dial
that fails, a read-loop error (the forwarding loop logs, emits
`connection-error` and returns — the map is *not* touched), and an explicit
`DisconnectFromChannel`. -/
inductive AppEvent where
  | connectOk (ch : Str)
  | connectFail (ch : Str)
  | readError (ch : Str)
  | disconnect (ch : Str)
deriving DecidableEq

/-- Registering a fresh connection (`a.connections[channel] = conn`), and
focusing the channel when nothing is focused yet. -/
def connectInstall (s : AppState) (c : Str) : AppState :=
  { connections := setAssoc s.connections c
      { isConnected := true, forwarding := true, clientAlive := true }
    activeChannel := if s.activeChannel == [] then c else s.activeChannel }

/-- One supervisor step (`ConnectToChannel` success/failure, the read-error
arm of `forwardMessages`, `DisconnectFromChannel`). -/
def appStep (s : AppState) (e : AppEvent) : AppState :=
  match e with
  | .connectOk ch =>
    let c := normalizeChannel ch
    match lookupAssoc s.connections c with
    | some entry =>
      if entry.isConnected then { s with activeChannel := c }
      else connectInstall s c
    | none => connectInstall s c
  | .connectFail _ => s
  | .readError ch =>
    { s with connections := (updateAssoc s.connections ch
        (fun en => { en with forwarding := false, clientAlive := false })) }
  | .disconnect ch =>
    let c := normalizeChannel ch
    match lookupAssoc s.connections c with
    | none => s
    | some _ =>
      { connections := removeAssoc s.connections c
        activeChannel := if s.activeChannel == c then [] else s.activeChannel }

/-- Supervisor states reachable from the empty map. -/
inductive ReachableApp : AppState → Prop where
  | init : ReachableApp { connections := [], activeChannel := [] }
  | step (s : AppState) (e : AppEvent) : ReachableApp s → ReachableApp (appStep s e)

/-- Connect to `a`, then its read loop errors out. -/
def appStateBug : AppState :=
  appStep (appStep { connections := [], activeChannel := [] }
    (.connectOk (str "a"))) (.readError (str "#a"))

/-- C10 counterexample: after a read-loop error ends the session, the
channel is still in the connection map (with its session dead), so the
claimed invariant "in the map only while actively connecting or connected,
removed synchronously with disconnect" fails in a reachable state. -/
theorem C10_counterexample :
    ReachableApp appStateBug ∧
    lookupAssoc appStateBug.connections (str "#a")
      = some { isConnected := true, forwarding := false, clientAlive := false } :=
  ⟨ReachableApp.step _ _ (ReachableApp.step _ _ ReachableApp.init), by decide⟩

lemma lookupAssoc_update_isSome {α : Type} (m : List (Str × α)) (k k' : Str)
    (f : α → α) :
    (lookupAssoc (updateAssoc m k f) k').isSome = (lookupAssoc m k').isSome := by
  simp only [lookupAssoc, updateAssoc, List.find?_map, Option.isSome_map]
  have hp : ((fun p : Str × α => p.1 == k') ∘
      (fun p : Str × α => if p.1 == k then (p.1, f p.2) else p))
      = (fun p : Str × α => p.1 == k') := by
    funext p
    by_cases h : p.1 = k <;> simp [h]
  rw [hp]
  simp [Option.isSome_map]

lemma lookupAssoc_remove_self {α : Type} (m : List (Str × α)) (k : Str) :
    lookupAssoc (removeAssoc m k) k = none := by
  simp only [lookupAssoc, removeAssoc, Option.map_eq_none']
  rw [List.find?_eq_none]
  intro p hp
  have := (List.mem_filter.mp hp).2
  simpa using this

lemma lookupAssoc_remove_ne {α : Type} (m : List (Str × α)) (k k' : Str)
    (h : k' ≠ k) :
    lookupAssoc (removeAssoc m k) k' = lookupAssoc m k' := by
  induction m with
  | nil => rfl
  | cons p m ih =>
    by_cases hk : p.1 == k
    · have hpk : p.1 = k := by simpa using hk
      have hk' : (p.1 == k') = false := by
        rw [beq_eq_false_iff_ne, hpk]
        exact Ne.symm h
      simp only [removeAssoc, List.filter_cons, hk, Bool.not_true, lookupAssoc,
        List.find?, hk']
      exact ih
    · by_cases hk2 : p.1 == k'
      · simp only [removeAssoc, List.filter_cons, hk, Bool.not_false, lookupAssoc,
          List.find?, hk2]
      · simp only [removeAssoc, List.filter_cons, hk, Bool.not_false, lookupAssoc,
          List.find?, hk2]
        exact ih

/-- C10 amended: map membership is never changed by a read-loop error (the
channel stays in the map, its session dead, until an explicit disconnect),
and `DisconnectFromChannel` removes exactly its own (normalized) channel,
leaving every other entry untouched. -/
theorem C10_map_theorem (s : AppState) (ch ch' : Str) :
    ((lookupAssoc (appStep s (.readError ch)).connections ch').isSome
      = (lookupAssoc s.connections ch').isSome) ∧
    lookupAssoc (appStep s (.disconnect ch)).connections (normalizeChannel ch)
      = none ∧
    (ch' ≠ normalizeChannel ch →
      lookupAssoc (appStep s (.disconnect ch)).connections ch'
        = lookupAssoc s.connections ch') := by
  refine ⟨?_, ?_, ?_⟩
  · simp only [appStep]
    exact lookupAssoc_update_isSome _ _ _ _
  · simp only [appStep]
    cases hl : lookupAssoc s.connections (normalizeChannel ch) with
    | none => exact hl
    | some entry => exact lookupAssoc_remove_self _ _
  · intro hne
    simp only [appStep]
    cases hl : lookupAssoc s.connections (normalizeChannel ch) with
    | none => rfl
    | some entry => exact lookupAssoc_remove_ne _ _ _ hne

/-- C10 amended witness: disconnecting `#a` in the post-error state leaves
the (absent) entry for `#b` unchanged. -/
theorem C10_map_witness :
    lookupAssoc (appStep appStateBug (.disconnect (str "#a"))).connections (str "#b")
      = lookupAssoc appStateBug.connections (str "#b") :=
  (C10_map_theorem appStateBug (str "#a") (str "#b")).2.2 (by decide)
